import Mathlib

/-!
Verification of the mooslib linear-algebra core (vectors, quaternions,
matrices, transform builders, AABB, ACES tonemap) against its
natural-language specification.

The C++ element types (f32/f64) are modelled by exact arithmetic: ℚ for
all executable definitions, ℝ where the source calls std::sqrt.  Calls to
std::sqrt and std::tan are passed in as explicit function arguments so the
embedded definitions stay executable.  The configurable bad-determinant /
assertion hook is modelled by returning a Bool flag alongside the value:
the flag is true exactly when the C++ code would invoke the hook.
-/

namespace Moos

/-- Vector with 3 components, embedding `tvec3<T>` from mooslib/math.h. -/
@[ext]
structure V3 (α : Type) where
  x : α
  y : α
  z : α
deriving DecidableEq

/-- Vector with 4 components, embedding `tvec4<T>` from mooslib/math.h. -/
@[ext]
structure V4 (α : Type) where
  x : α
  y : α
  z : α
  w : α
deriving DecidableEq

/-- Matrix of 3x3 entries stored as three column vectors, embedding
`tmat3<T>`. -/
@[ext]
structure M3 (α : Type) where
  x : V3 α
  y : V3 α
  z : V3 α
deriving DecidableEq

/-- Matrix of 4x4 entries stored as four column vectors, embedding
`tmat4<T>`. -/
@[ext]
structure M4 (α : Type) where
  x : V4 α
  y : V4 α
  z : V4 α
  w : V4 α
deriving DecidableEq

/-- Quaternion: a 3-vector part `vec` plus scalar `w`, embedding
`tquat<T>`. -/
@[ext]
structure Quat (α : Type) where
  vec : V3 α
  w : α
deriving DecidableEq

section VectorOps

variable {α : Type} [Field α]

/-- Embeds `tvec3::operator+(const tvec3&)`: componentwise addition. -/
def vadd (a b : V3 α) : V3 α := ⟨a.x + b.x, a.y + b.y, a.z + b.z⟩

/-- Embeds `tvec3::operator-(const tvec3&)`: componentwise subtraction. -/
def vsub (a b : V3 α) : V3 α := ⟨a.x - b.x, a.y - b.y, a.z - b.z⟩

/-- Embeds unary `tvec3::operator-`: componentwise negation. -/
def vneg (a : V3 α) : V3 α := ⟨-a.x, -a.y, -a.z⟩

/-- Embeds `operator*(T lhs, const tvec3& rhs)` (scalar times vector). -/
def vsmul (f : α) (a : V3 α) : V3 α := ⟨a.x * f, a.y * f, a.z * f⟩

/-- Embeds `tvec3::operator*(const tvec3&)`: componentwise product. -/
def vmulV (a b : V3 α) : V3 α := ⟨a.x * b.x, a.y * b.y, a.z * b.z⟩

/-- Embeds `tvec3::operator/(const tvec3&)`: componentwise quotient. -/
def vdivV (a b : V3 α) : V3 α := ⟨a.x / b.x, a.y / b.y, a.z / b.z⟩

/-- Embeds `tvec3::operator/(T f)`: vector divided by scalar. -/
def vdivS (a : V3 α) (f : α) : V3 α := ⟨a.x / f, a.y / f, a.z / f⟩

/-- Embeds `tvec3::operator+(T t)`: scalar added to every component. -/
def vaddS (a : V3 α) (t : α) : V3 α := ⟨a.x + t, a.y + t, a.z + t⟩

/-- Embeds `tvec3::operator-(T t)`: scalar subtracted from every
component. -/
def vsubS (a : V3 α) (t : α) : V3 α := ⟨a.x - t, a.y - t, a.z - t⟩

/-- Embeds `dot` for 3-vectors: sum of componentwise products. -/
def dot (a b : V3 α) : α := a.x * b.x + a.y * b.y + a.z * b.z

/-- Embeds `cross` for 3-vectors, exactly as in mooslib/math.h lines
347-355. -/
def cross (a b : V3 α) : V3 α :=
  ⟨a.y * b.z - a.z * b.y,
   a.z * b.x - a.x * b.z,
   a.x * b.y - a.y * b.x⟩

/-- Embeds `length2(v) = dot(v, v)`. -/
def length2 (v : V3 α) : α := dot v v

/-- Embeds `length(v) = sqrt(length2(v))`; std::sqrt is passed in
explicitly. -/
def length (sqrt : α → α) (v : V3 α) : α := sqrt (length2 v)

/-- Embeds `normalize(v) = v / length(v)`. -/
def normalize (sqrt : α → α) (v : V3 α) : V3 α := vdivS v (length sqrt v)

/-- Embeds `dot` for 4-vectors (the scalar reference path of the SIMD
variant). -/
def dot4 (a b : V4 α) : α := a.x * b.x + a.y * b.y + a.z * b.z + a.w * b.w

end VectorOps

section OrderOps

variable {α : Type} [LinearOrder α]

/-- Embeds `min(a, b)` for 3-vectors: componentwise minimum. -/
def vmin (a b : V3 α) : V3 α := ⟨min a.x b.x, min a.y b.y, min a.z b.z⟩

/-- Embeds `max(a, b)` for 3-vectors: componentwise maximum. -/
def vmax (a b : V3 α) : V3 α := ⟨max a.x b.x, max a.y b.y, max a.z b.z⟩

/-- Embeds `clamp(x, minEdge, maxEdge) = max(minEdge, min(x, maxEdge))`
componentwise. -/
def clamp (x lo hi : V3 α) : V3 α := vmax lo (vmin x hi)

end OrderOps

section QuatOps

variable {α : Type} [Field α]

/-- Embeds `tquat::operator*(const tquat&)`: Hamilton product, exactly as
in the source: vector part `p.w*q.vec + q.w*p.vec + cross(p.vec, q.vec)`,
scalar part `p.w*q.w - dot(p.vec, q.vec)`. -/
def qmul (p q : Quat α) : Quat α :=
  ⟨vadd (vadd (vsmul p.w q.vec) (vsmul q.w p.vec)) (cross p.vec q.vec),
   p.w * q.w - dot p.vec q.vec⟩

/-- Embeds `tquat::operator*(const tvec3&)` exactly as written in
src/mooslib/math.h lines 591-600: `t = 2 * cross(v, v)` (sic, the first
argument is `v`, not the member `vec`), then `v + w*t + cross(vec, t)`. -/
def quatMulVec (q : Quat α) (v : V3 α) : V3 α :=
  let t := vsmul 2 (cross v v)
  let res := vadd (vadd v (vsmul q.w t)) (cross q.vec t)
  res

/-- Reference semantics: the quaternion-vector rotation as the spec
defines it for unit `q`, the vector part of `q * (v, 0) * conjugate(q)`,
with the standard conjugate `(-q.vec, q.w)`. -/
def rotateSandwich (q : Quat α) (v : V3 α) : V3 α :=
  (qmul (qmul q ⟨v, 0⟩) ⟨vneg q.vec, q.w⟩).vec

/-- Squared quaternion norm `dot(q.vec, q.vec) + q.w^2`, used to state
unit-norm hypotheses. -/
def quatNorm2 (q : Quat α) : α := dot q.vec q.vec + q.w * q.w

end QuatOps

section MatrixOps

variable {α : Type} [Field α]

/-- Embeds `transpose(const tmat3&)`: swap row/column interpretation. -/
def transpose3 (m : M3 α) : M3 α :=
  ⟨⟨m.x.x, m.y.x, m.z.x⟩,
   ⟨m.x.y, m.y.y, m.z.y⟩,
   ⟨m.x.z, m.y.z, m.z.z⟩⟩

/-- Embeds `transpose(const tmat4&)`. -/
def transpose4 (m : M4 α) : M4 α :=
  ⟨⟨m.x.x, m.y.x, m.z.x, m.w.x⟩,
   ⟨m.x.y, m.y.y, m.z.y, m.w.y⟩,
   ⟨m.x.z, m.y.z, m.z.z, m.w.z⟩,
   ⟨m.x.w, m.y.w, m.z.w, m.w.w⟩⟩

/-- Embeds `tmat3::operator*(const tmat3&)`: transpose self, then dot
rows with the columns of the other matrix, exactly as in the source (the
local `trans` variable of the C++ body is written inline here). -/
def mat3Mul (a b : M3 α) : M3 α :=
  ⟨⟨dot (transpose3 a).x b.x, dot (transpose3 a).y b.x, dot (transpose3 a).z b.x⟩,
   ⟨dot (transpose3 a).x b.y, dot (transpose3 a).y b.y, dot (transpose3 a).z b.y⟩,
   ⟨dot (transpose3 a).x b.z, dot (transpose3 a).y b.z, dot (transpose3 a).z b.z⟩⟩

/-- Embeds `tmat3::operator*(const tvec3&)`: transpose self, then dot
each row with the column vector v. -/
def mat3MulVec (m : M3 α) (v : V3 α) : V3 α :=
  ⟨dot (transpose3 m).x v, dot (transpose3 m).y v, dot (transpose3 m).z v⟩

/-- Embeds the body of `tmat4::operator*(const tvec4&)` as evidently
intended: transpose self and dot each row with v.  As written the source
declares the transposed temporary with type `tmat3<T>` while initializing
it from a `tmat4<T>` and then reads its non-existent member `w` —
ill-formed C++ in every revision — so this definition fixes that single
declared type (`tmat4<T> trans`, exactly as the adjacent matrix-matrix
operator does). -/
def mat4MulVec (m : M4 α) (v : V4 α) : V4 α :=
  ⟨dot4 (transpose4 m).x v, dot4 (transpose4 m).y v,
   dot4 (transpose4 m).z v, dot4 (transpose4 m).w v⟩

/-- Embeds the `tmat3(T d)` diagonal constructor: d on the diagonal, 0
elsewhere. -/
def mat3Diag (d : α) : M3 α :=
  ⟨⟨d, 0, 0⟩, ⟨0, d, 0⟩, ⟨0, 0, d⟩⟩

/-- Embeds `determinant(const tmat3&)`: cofactor expansion exactly as in
the source (math.h lines 700-706). -/
def determinant (m : M3 α) : α :=
  m.x.x * (m.y.y * m.z.z - m.y.z * m.z.y)
    - m.y.x * (m.x.y * m.z.z - m.z.y * m.x.z)
    + m.z.x * (m.x.y * m.y.z - m.y.y * m.x.z)

end MatrixOps

/-- Embeds `inverse(const tmat3&)` (math.h lines 708-734) with the
configurable bad-determinant hook modelled as a Bool: the flag is true
exactly when `|det| < eps` and the C++ code would invoke
MOOSLIB_ON_BAD_DETERMINANT_IN_MATRIX_INVERSE; the matrix is the value the
code returns when the configured hook returns normally (the default hook
asserts/aborts).  `eps` stands for `std::numeric_limits<T>::epsilon()`. -/
def inverse3 (eps : ℚ) (m : M3 ℚ) : Bool × M3 ℚ :=
  let det := determinant m
  let bad := decide (|det| < eps)
  let invDet := 1 / det
  (bad,
   ⟨⟨(m.y.y * m.z.z - m.y.z * m.z.y) * invDet,
     (m.z.y * m.x.z - m.x.y * m.z.z) * invDet,
     (m.x.y * m.y.z - m.x.z * m.y.y) * invDet⟩,
    ⟨(m.z.x * m.y.z - m.y.x * m.z.z) * invDet,
     (m.x.x * m.z.z - m.z.x * m.x.z) * invDet,
     (m.x.z * m.y.x - m.x.x * m.y.z) * invDet⟩,
    ⟨(m.y.x * m.z.y - m.z.x * m.y.y) * invDet,
     (m.x.y * m.z.x - m.x.x * m.z.y) * invDet,
     (m.x.x * m.y.y - m.x.y * m.y.x) * invDet⟩⟩)

/-- Embeds the 6+6 cofactor-pair determinant computed inside
`inverse(const tmat4&)` (math.h lines 826-843), hoisted verbatim. -/
def scDet4 (m : M4 ℚ) : ℚ :=
  let s0 := m.x.x * m.y.y - m.y.x * m.x.y
  let s1 := m.x.x * m.y.z - m.y.x * m.x.z
  let s2 := m.x.x * m.y.w - m.y.x * m.x.w
  let s3 := m.x.y * m.y.z - m.y.y * m.x.z
  let s4 := m.x.y * m.y.w - m.y.y * m.x.w
  let s5 := m.x.z * m.y.w - m.y.z * m.x.w
  let c0 := m.z.x * m.w.y - m.w.x * m.z.y
  let c1 := m.z.x * m.w.z - m.w.x * m.z.z
  let c2 := m.z.x * m.w.w - m.w.x * m.z.w
  let c3 := m.z.y * m.w.z - m.w.y * m.z.z
  let c4 := m.z.y * m.w.w - m.w.y * m.z.w
  let c5 := m.z.z * m.w.w - m.w.z * m.z.w
  s0 * c5 - s1 * c4 + s2 * c3 + s3 * c2 - s4 * c1 + s5 * c0

/-- Reference 4x4 determinant: Laplace expansion along the first column
(entry (i, 0) is component i of column `m.x`). -/
def determinant4 (m : M4 ℚ) : ℚ :=
  m.x.x * determinant (M3.mk ⟨m.y.y, m.y.z, m.y.w⟩ ⟨m.z.y, m.z.z, m.z.w⟩ ⟨m.w.y, m.w.z, m.w.w⟩)
    - m.x.y * determinant (M3.mk ⟨m.y.x, m.y.z, m.y.w⟩ ⟨m.z.x, m.z.z, m.z.w⟩ ⟨m.w.x, m.w.z, m.w.w⟩)
    + m.x.z * determinant (M3.mk ⟨m.y.x, m.y.y, m.y.w⟩ ⟨m.z.x, m.z.y, m.z.w⟩ ⟨m.w.x, m.w.y, m.w.w⟩)
    - m.x.w * determinant (M3.mk ⟨m.y.x, m.y.y, m.y.z⟩ ⟨m.z.x, m.z.y, m.z.z⟩ ⟨m.w.x, m.w.y, m.w.z⟩)

/-- Embeds `inverse(const tmat4&)` (math.h lines 821-872) with the
bad-determinant hook modelled as a Bool flag, as for `inverse3`. -/
def inverse4 (eps : ℚ) (m : M4 ℚ) : Bool × M4 ℚ :=
  let s0 := m.x.x * m.y.y - m.y.x * m.x.y
  let s1 := m.x.x * m.y.z - m.y.x * m.x.z
  let s2 := m.x.x * m.y.w - m.y.x * m.x.w
  let s3 := m.x.y * m.y.z - m.y.y * m.x.z
  let s4 := m.x.y * m.y.w - m.y.y * m.x.w
  let s5 := m.x.z * m.y.w - m.y.z * m.x.w
  let c0 := m.z.x * m.w.y - m.w.x * m.z.y
  let c1 := m.z.x * m.w.z - m.w.x * m.z.z
  let c2 := m.z.x * m.w.w - m.w.x * m.z.w
  let c3 := m.z.y * m.w.z - m.w.y * m.z.z
  let c4 := m.z.y * m.w.w - m.w.y * m.z.w
  let c5 := m.z.z * m.w.w - m.w.z * m.z.w
  let det := scDet4 m
  let bad := decide (|det| < eps)
  let invDet := 1 / det
  (bad,
   ⟨⟨(m.y.y * c5 - m.y.z * c4 + m.y.w * c3) * invDet,
     (-m.x.y * c5 + m.x.z * c4 - m.x.w * c3) * invDet,
     (m.w.y * s5 - m.w.z * s4 + m.w.w * s3) * invDet,
     (-m.z.y * s5 + m.z.z * s4 - m.z.w * s3) * invDet⟩,
    ⟨(-m.y.x * c5 + m.y.z * c2 - m.y.w * c1) * invDet,
     (m.x.x * c5 - m.x.z * c2 + m.x.w * c1) * invDet,
     (-m.w.x * s5 + m.w.z * s2 - m.w.w * s1) * invDet,
     (m.z.x * s5 - m.z.z * s2 + m.z.w * s1) * invDet⟩,
    ⟨(m.y.x * c4 - m.y.y * c2 + m.y.w * c0) * invDet,
     (-m.x.x * c4 + m.x.y * c2 - m.x.w * c0) * invDet,
     (m.w.x * s4 - m.w.y * s2 + m.w.w * s0) * invDet,
     (-m.z.x * s4 + m.z.y * s2 - m.z.w * s0) * invDet⟩,
    ⟨(-m.y.x * c3 + m.y.y * c1 - m.y.z * c0) * invDet,
     (m.x.x * c3 - m.x.y * c1 + m.x.z * c0) * invDet,
     (-m.w.x * s3 + m.w.y * s1 - m.w.z * s0) * invDet,
     (m.z.x * s3 - m.z.y * s1 + m.z.z * s0) * invDet⟩⟩)

/-- Cofactor matrix of the 3x3 inverse before division by the
determinant: entry for entry the parenthesized factors of the source. -/
def adjugate3 (m : M3 ℚ) : M3 ℚ :=
  ⟨⟨m.y.y * m.z.z - m.y.z * m.z.y,
    m.z.y * m.x.z - m.x.y * m.z.z,
    m.x.y * m.y.z - m.x.z * m.y.y⟩,
   ⟨m.z.x * m.y.z - m.y.x * m.z.z,
    m.x.x * m.z.z - m.z.x * m.x.z,
    m.x.z * m.y.x - m.x.x * m.y.z⟩,
   ⟨m.y.x * m.z.y - m.z.x * m.y.y,
    m.x.y * m.z.x - m.x.x * m.z.y,
    m.x.x * m.y.y - m.x.y * m.y.x⟩⟩

/-- Cofactor matrix of the 4x4 inverse before division by the
determinant: the parenthesized s/c combinations of the source. -/
def adjugate4 (m : M4 ℚ) : M4 ℚ :=
  let s0 := m.x.x * m.y.y - m.y.x * m.x.y
  let s1 := m.x.x * m.y.z - m.y.x * m.x.z
  let s2 := m.x.x * m.y.w - m.y.x * m.x.w
  let s3 := m.x.y * m.y.z - m.y.y * m.x.z
  let s4 := m.x.y * m.y.w - m.y.y * m.x.w
  let s5 := m.x.z * m.y.w - m.y.z * m.x.w
  let c0 := m.z.x * m.w.y - m.w.x * m.z.y
  let c1 := m.z.x * m.w.z - m.w.x * m.z.z
  let c2 := m.z.x * m.w.w - m.w.x * m.z.w
  let c3 := m.z.y * m.w.z - m.w.y * m.z.z
  let c4 := m.z.y * m.w.w - m.w.y * m.z.w
  let c5 := m.z.z * m.w.w - m.w.z * m.z.w
  ⟨⟨m.y.y * c5 - m.y.z * c4 + m.y.w * c3,
    -m.x.y * c5 + m.x.z * c4 - m.x.w * c3,
    m.w.y * s5 - m.w.z * s4 + m.w.w * s3,
    -m.z.y * s5 + m.z.z * s4 - m.z.w * s3⟩,
   ⟨-m.y.x * c5 + m.y.z * c2 - m.y.w * c1,
    m.x.x * c5 - m.x.z * c2 + m.x.w * c1,
    -m.w.x * s5 + m.w.z * s2 - m.w.w * s1,
    m.z.x * s5 - m.z.z * s2 + m.z.w * s1⟩,
   ⟨m.y.x * c4 - m.y.y * c2 + m.y.w * c0,
    -m.x.x * c4 + m.x.y * c2 - m.x.w * c0,
    m.w.x * s4 - m.w.y * s2 + m.w.w * s0,
    -m.z.x * s4 + m.z.y * s2 - m.z.w * s0⟩,
   ⟨-m.y.x * c3 + m.y.y * c1 - m.y.z * c0,
    m.x.x * c3 - m.x.y * c1 + m.x.z * c0,
    -m.w.x * s3 + m.w.y * s1 - m.w.z * s0,
    m.z.x * s3 - m.z.y * s1 + m.z.z * s0⟩⟩

/-- Matrix of every entry of a 3x3 matrix multiplied by a scalar on the
right, mirroring how the source multiplies each cofactor by `invDet`. -/
def mat3SMulRight (m : M3 ℚ) (f : ℚ) : M3 ℚ :=
  ⟨⟨m.x.x * f, m.x.y * f, m.x.z * f⟩,
   ⟨m.y.x * f, m.y.y * f, m.y.z * f⟩,
   ⟨m.z.x * f, m.z.y * f, m.z.z * f⟩⟩

/-- Matrix of every entry of a 4x4 matrix multiplied by a scalar on the
right. -/
def mat4SMulRight (m : M4 ℚ) (f : ℚ) : M4 ℚ :=
  ⟨⟨m.x.x * f, m.x.y * f, m.x.z * f, m.x.w * f⟩,
   ⟨m.y.x * f, m.y.y * f, m.y.z * f, m.y.w * f⟩,
   ⟨m.z.x * f, m.z.y * f, m.z.z * f, m.z.w * f⟩,
   ⟨m.w.x * f, m.w.y * f, m.w.z * f, m.w.w * f⟩⟩

/-- Machine epsilon of f32, 2^-23, as an exact rational. -/
def epsF32 : ℚ := 1 / 8388608

/-- Concrete rank-1 3x3 matrix (all entries 1), determinant 0. -/
def onesM3 : M3 ℚ := ⟨⟨1, 1, 1⟩, ⟨1, 1, 1⟩, ⟨1, 1, 1⟩⟩

/-- Concrete rank-1 4x4 matrix (all entries 1), determinant 0. -/
def onesM4 : M4 ℚ := ⟨⟨1, 1, 1, 1⟩, ⟨1, 1, 1, 1⟩, ⟨1, 1, 1, 1⟩, ⟨1, 1, 1, 1⟩⟩

/-- Concrete diagonal 3x3 matrix diag(2^-30, 1, 1): nonzero determinant
below f32 machine epsilon. -/
def tinyDiagM3 : M3 ℚ := ⟨⟨1 / 1073741824, 0, 0⟩, ⟨0, 1, 0⟩, ⟨0, 0, 1⟩⟩

/-- Concrete diagonal 4x4 matrix diag(2^-30, 1, 1, 1): nonzero
determinant below f32 machine epsilon. -/
def tinyDiagM4 : M4 ℚ :=
  ⟨⟨1 / 1073741824, 0, 0, 0⟩, ⟨0, 1, 0, 0⟩, ⟨0, 0, 1, 0⟩, ⟨0, 0, 0, 1⟩⟩

/-- Concrete column matrix [[1,3,2],[2,2,1],[3,1,3]] from the spec,
determinant -12. -/
def specM3 : M3 ℚ := ⟨⟨1, 3, 2⟩, ⟨2, 2, 1⟩, ⟨3, 1, 3⟩⟩

/-- Embeds `perspectiveProjectionToVulkanClipSpace` (transform.h lines
85-105).  `tanF` stands for std::tan and `eps` for the machine epsilon of
the element type.  The Bool is true exactly when at least one of the
three MOOSLIB_ASSERT conditions fails, i.e. when the assertion hook
fires; the matrix is the value built afterwards.  Note the first assert
tests `|aspectRatio - eps| > 0`, which only fails when aspectRatio equals
eps exactly. -/
def perspectiveProjectionToVulkanClipSpace (tanF : ℚ → ℚ)
    (eps fovy aspectRatio zNear zFar : ℚ) : Bool × M4 ℚ :=
  let a1 := decide (|aspectRatio - eps| > 0)
  let a2 := decide (|zFar - zNear| > eps)
  let a3 := decide (fovy > eps)
  let tanHalfFovy := tanF (fovy / 2)
  (!a1 || !a2 || !a3,
   ⟨⟨1 / (aspectRatio * tanHalfFovy), 0, 0, 0⟩,
    ⟨0, -1 / tanHalfFovy, 0, 0⟩,
    ⟨0, 0, zFar / (zNear - zFar), -1⟩,
    ⟨0, 0, -(zFar * zNear) / (zFar - zNear), 0⟩⟩)

/-- Embeds `perspectiveProjectionToOpenGLClipSpace` (transform.h lines
107-127), modelled exactly like the Vulkan variant; the three asserts are
identical. -/
def perspectiveProjectionToOpenGLClipSpace (tanF : ℚ → ℚ)
    (eps fovy aspectRatio zNear zFar : ℚ) : Bool × M4 ℚ :=
  let a1 := decide (|aspectRatio - eps| > 0)
  let a2 := decide (|zFar - zNear| > eps)
  let a3 := decide (fovy > eps)
  let tanHalfFovy := tanF (fovy / 2)
  (!a1 || !a2 || !a3,
   ⟨⟨1 / (aspectRatio * tanHalfFovy), 0, 0, 0⟩,
    ⟨0, 1 / tanHalfFovy, 0, 0⟩,
    ⟨0, 0, -(zFar + zNear) / (zFar - zNear), -1⟩,
    ⟨0, 0, -(2 * zFar * zNear) / (zFar - zNear), 0⟩⟩)

/-- Embeds the ACES input matrix constant (sRGB to saturated AP1). -/
def inputMatrix : M3 ℚ :=
  ⟨⟨0.59719, 0.07600, 0.02840⟩,
   ⟨0.35458, 0.90834, 0.13383⟩,
   ⟨0.04823, 0.01566, 0.83777⟩⟩

/-- Embeds the ACES output matrix constant (back to sRGB). -/
def outputMatrix : M3 ℚ :=
  ⟨⟨1.60475, -0.10208, -0.00327⟩,
   ⟨-0.53108, 1.10813, -0.07276⟩,
   ⟨-0.07367, -0.00605, 1.07602⟩⟩

/-- Embeds `colorspace::ACES::RRTAndODTFit`: the rational fit `a / b`
with `a = v*(v + 0.0245786) - 0.000090537` and
`b = v*(v*0.983729 + 0.4329510) + 0.238081`, componentwise. -/
def RRTAndODTFit (v : V3 ℚ) : V3 ℚ :=
  vdivV (vsubS (vmulV v (vaddS v 0.0245786)) 0.000090537)
        (vaddS (vmulV v (vaddS (vsmul 0.983729 v) 0.4329510)) 0.238081)

/-- Embeds `colorspace::ACES::referenceToneMap`: input matrix, fit,
output matrix, then clamp to [0, 1] componentwise. -/
def referenceToneMap (color : V3 ℚ) : V3 ℚ :=
  clamp (mat3MulVec outputMatrix (RRTAndODTFit (mat3MulVec inputMatrix color)))
    ⟨0, 0, 0⟩ ⟨1, 1, 1⟩

/-- Value domain of the AABB component type: exact rationals extended
with -infinity (⊥) and +infinity (⊤), matching
`std::numeric_limits<Float>::infinity()` used by the default box. -/
abbrev EFloat : Type := WithBot (WithTop ℚ)

/-- Embeds `aabb3`: `min` and `max` corner vectors. -/
structure aabb3 where
  min : V3 EFloat
  max : V3 EFloat

/-- Embeds the default-constructed box: `min = vec3(+infinity)`,
`max = vec3(-infinity)` (the empty/inverted box). -/
def aabb3Default : aabb3 := ⟨⟨⊤, ⊤, ⊤⟩, ⟨⊥, ⊥, ⊥⟩⟩

/-- Embeds `aabb3::expandWithPoint(point)`: `min = min(point, min)`,
`max = max(point, max)` (argument order as in the source), returning the
updated box. -/
def expandWithPoint (box : aabb3) (point : V3 EFloat) : aabb3 :=
  ⟨vmin point box.min, vmax point box.max⟩

/-- Embeds `aabb3::contains(point)`:
`all(greaterThanEqual(point, min) && lessThanEqual(point, max))`. -/
def aabbContains (box : aabb3) (point : V3 EFloat) : Bool :=
  decide (box.min.x ≤ point.x) && decide (box.min.y ≤ point.y)
    && decide (box.min.z ≤ point.z) && decide (point.x ≤ box.max.x)
    && decide (point.y ≤ box.max.y) && decide (point.z ≤ box.max.z)

/-- Finite point: every component is an ordinary rational. -/
def finiteV3 (p : V3 ℚ) : V3 EFloat :=
  ⟨((p.x : WithTop ℚ) : EFloat), ((p.y : WithTop ℚ) : EFloat),
   ((p.z : WithTop ℚ) : EFloat)⟩

section LookAtDefs

variable {α : Type} [Field α]

/-- Embeds the `tvec4(const tvec3&, T e)` constructor: a 3-vector
extended with an explicit fourth component. -/
def v4 (v : V3 α) (e : α) : V4 α := ⟨v.x, v.y, v.z, e⟩

/-- Row 0 of a 4x4 matrix (the x components of the four columns). -/
def row0 (m : M4 α) : V4 α := ⟨m.x.x, m.y.x, m.z.x, m.w.x⟩

/-- Row 1 of a 4x4 matrix. -/
def row1 (m : M4 α) : V4 α := ⟨m.x.y, m.y.y, m.z.y, m.w.y⟩

/-- Row 2 of a 4x4 matrix. -/
def row2 (m : M4 α) : V4 α := ⟨m.x.z, m.y.z, m.z.z, m.w.z⟩

/-- Row 3 of a 4x4 matrix. -/
def row3 (m : M4 α) : V4 α := ⟨m.x.w, m.y.w, m.z.w, m.w.w⟩

/-- Embeds the `forward` local of `lookAt` (transform.h line 68):
`normalize(target - eye)`. -/
def lookForward (sqrt : α → α) (eye target : V3 α) : V3 α :=
  normalize sqrt (vsub target eye)

/-- Embeds the `right` local of `lookAt` (transform.h line 69):
`normalize(cross(forward, tempUp))`. -/
def lookRight (sqrt : α → α) (eye target tempUp : V3 α) : V3 α :=
  normalize sqrt (cross (lookForward sqrt eye target) tempUp)

/-- Embeds the `up` local of `lookAt` (transform.h line 70):
`cross(right, forward)`. -/
def lookUp (sqrt : α → α) (eye target tempUp : V3 α) : V3 α :=
  cross (lookRight sqrt eye target tempUp) (lookForward sqrt eye target)

/-- Embeds `lookAt(eye, target, tempUp)` from transform.h lines 65-81:
assemble `mTrans` column by column — `{right, 0}`, `{up, 0}`,
`{-forward, 0}`,
`{-dot(right, eye), -dot(up, eye), +dot(forward, eye), 1}` — and return
its transpose. -/
def lookAt (sqrt : α → α) (eye target tempUp : V3 α) : M4 α :=
  transpose4
    ⟨v4 (lookRight sqrt eye target tempUp) 0,
     v4 (lookUp sqrt eye target tempUp) 0,
     v4 (vneg (lookForward sqrt eye target)) 0,
     ⟨-(dot (lookRight sqrt eye target tempUp) eye),
      -(dot (lookUp sqrt eye target tempUp) eye),
      dot (lookForward sqrt eye target) eye, 1⟩⟩

end LookAtDefs

/-! The theorems.  Each claim of the specification gets one theorem,
preceded by helper lemmas where needed. -/

/-- Claim C8: for every pair of 3-vectors a and b over exact arithmetic,
`cross(a, b) = -cross(b, a)`, and `cross(a, a)` is the zero vector. -/
theorem cross_antisymm_self_zero (a b : V3 ℚ) :
    cross a b = vneg (cross b a) ∧ cross a a = V3.mk 0 0 0 := by
  constructor
  · ext <;> simp [cross, vneg] <;> ring
  · ext <;> simp [cross] <;> ring

/-- Claim C8 witness: the two identities evaluated at a = (1,2,3),
b = (4,5,6). -/
theorem cross_antisymm_self_zero_witness :
    cross (V3.mk (1:ℚ) 2 3) (V3.mk 4 5 6)
        = vneg (cross (V3.mk 4 5 6) (V3.mk 1 2 3))
      ∧ cross (V3.mk (1:ℚ) 2 3) (V3.mk 1 2 3) = V3.mk 0 0 0 :=
  cross_antisymm_self_zero (V3.mk 1 2 3) (V3.mk 4 5 6)

/-- Claim C1: the source of `tquat::operator*(const tvec3&)` in
src/mooslib/math.h computes `t = 2 * cross(v, v)`, which is identically
zero, so the operator returns `v` unchanged for every quaternion — it is
not the documented `t = 2 * cross(q.vec, v)` double-cross form and does
not rotate.  At the unit quaternion q = ((0,0,1), 0) (a 180-degree turn
about z) and v = (1,0,0), the code returns (1,0,0) while the rotation
`q * (v,0) * conjugate(q)` required by the claim returns (-1,0,0). -/
theorem quatMulVec_is_identity_bug :
    (∀ (q : Quat ℚ) (v : V3 ℚ), quatMulVec q v = v)
      ∧ quatNorm2 (Quat.mk (V3.mk (0:ℚ) 0 1) 0) = 1
      ∧ quatMulVec (Quat.mk (V3.mk (0:ℚ) 0 1) 0) (V3.mk 1 0 0) = V3.mk 1 0 0
      ∧ rotateSandwich (Quat.mk (V3.mk (0:ℚ) 0 1) 0) (V3.mk 1 0 0)
          = V3.mk (-1) 0 0 := by
  have hGen : ∀ (q : Quat ℚ) (v : V3 ℚ), quatMulVec q v = v := by
    intro q v
    ext <;> simp [quatMulVec, cross, vadd, vsmul] <;> ring
  refine ⟨hGen, by norm_num [quatNorm2, dot], hGen _ _, ?_⟩
  ext <;> norm_num [rotateSandwich, qmul, vadd, vsmul, vneg, cross, dot]

/-- Claim C5: matrix-vector products treat v as a column and return in
component i the dot product of row i with v, equivalently the linear
combination of the columns weighted by the components of v.  Proved for
the 3x3 operator as written, and for the 4x4 operator with its single
ill-formed declaration corrected (see `mat4MulVec`); as written the 4x4
operator does not compile when instantiated. -/
theorem matVec_rows_dot (m : M3 ℚ) (v : V3 ℚ) (m4 : M4 ℚ) (v4c : V4 ℚ) :
    mat3MulVec m v
        = V3.mk (dot (V3.mk m.x.x m.y.x m.z.x) v)
            (dot (V3.mk m.x.y m.y.y m.z.y) v)
            (dot (V3.mk m.x.z m.y.z m.z.z) v)
      ∧ mat3MulVec m v
          = vadd (vadd (vsmul v.x m.x) (vsmul v.y m.y)) (vsmul v.z m.z)
      ∧ mat4MulVec m4 v4c
          = V4.mk (dot4 (V4.mk m4.x.x m4.y.x m4.z.x m4.w.x) v4c)
              (dot4 (V4.mk m4.x.y m4.y.y m4.z.y m4.w.y) v4c)
              (dot4 (V4.mk m4.x.z m4.y.z m4.z.z m4.w.z) v4c)
              (dot4 (V4.mk m4.x.w m4.y.w m4.z.w m4.w.w) v4c) := by
  refine ⟨?_, ?_, ?_⟩
  · ext <;> simp [mat3MulVec, transpose3, dot]
  · ext <;> simp [mat3MulVec, transpose3, dot, vadd, vsmul]
  · ext <;> simp [mat4MulVec, transpose4, dot4]

/-- Equality of the s/c cofactor-pair determinant with the reference
Laplace expansion, so the 4x4 inverse tests the true determinant. -/
theorem scDet4_eq_determinant4 (m : M4 ℚ) : scDet4 m = determinant4 m := by
  simp only [scDet4, determinant4, determinant]
  ring

/-- Claim C3: the bad-determinant hook fires if and only if the absolute
value of the determinant is below the machine epsilon `eps` of the
element type, for the 3x3 and the 4x4 inverse; in particular a matrix
with determinant exactly zero always triggers the hook. -/
theorem inverse_hook_iff_small_det (eps : ℚ) (m3 : M3 ℚ) (m4 : M4 ℚ)
    (heps : 0 < eps) :
    ((inverse3 eps m3).fst = true ↔ |determinant m3| < eps)
      ∧ ((inverse4 eps m4).fst = true ↔ |determinant4 m4| < eps)
      ∧ (determinant m3 = 0 → (inverse3 eps m3).fst = true)
      ∧ (determinant4 m4 = 0 → (inverse4 eps m4).fst = true) := by
  have h3 : (inverse3 eps m3).fst = true ↔ |determinant m3| < eps := by
    simp [inverse3]
  have h4 : (inverse4 eps m4).fst = true ↔ |determinant4 m4| < eps := by
    simp [inverse4, scDet4_eq_determinant4]
  refine ⟨h3, h4, ?_, ?_⟩
  · intro hz
    rw [h3, hz]
    simpa using heps
  · intro hz
    rw [h4, hz]
    simpa using heps

/-- Claim C3 witness: with eps = 2^-23 (f32 machine epsilon), the rank-1
all-ones 3x3 matrix and the all-ones 4x4 matrix both have determinant 0
and both trigger the hook. -/
theorem inverse_hook_iff_small_det_witness :
    (0:ℚ) < epsF32
      ∧ (((inverse3 epsF32 onesM3).fst = true ↔ |determinant onesM3| < epsF32)
          ∧ ((inverse4 epsF32 onesM4).fst = true ↔ |determinant4 onesM4| < epsF32)
          ∧ (determinant onesM3 = 0 → (inverse3 epsF32 onesM3).fst = true)
          ∧ (determinant4 onesM4 = 0 → (inverse4 epsF32 onesM4).fst = true)) :=
  ⟨by norm_num [epsF32],
   inverse_hook_iff_small_det epsF32 onesM3 onesM4 (by norm_num [epsF32])⟩

/-- Characterization: the matrix returned by the 3x3 inverse is the
cofactor matrix with every entry multiplied by 1/det, independent of the
epsilon test. -/
theorem inverse3_snd (eps : ℚ) (m : M3 ℚ) :
    (inverse3 eps m).snd = mat3SMulRight (adjugate3 m) (1 / determinant m) := by
  ext <;> simp [inverse3, mat3SMulRight, adjugate3]

/-- Characterization: the matrix returned by the 4x4 inverse is the
cofactor matrix with every entry multiplied by 1/det, independent of the
epsilon test. -/
theorem inverse4_snd (eps : ℚ) (m : M4 ℚ) :
    (inverse4 eps m).snd = mat4SMulRight (adjugate4 m) (1 / determinant4 m) := by
  ext <;> simp [inverse4, mat4SMulRight, adjugate4, scDet4_eq_determinant4]

/-- Claim C9: on a near-singular matrix the hook fires, and after the
hook returns the computation proceeds: the result is exactly the
cofactor matrix with every entry multiplied by 1/det (division by the
near-zero determinant), identical to the result for any other epsilon —
no sentinel value, early exit, or rollback on the error path. -/
theorem inverse_no_early_exit (eps eps2 : ℚ) (m3 : M3 ℚ) (m4 : M4 ℚ)
    (h3 : |determinant m3| < eps) (h4 : |determinant4 m4| < eps) :
    (inverse3 eps m3).fst = true
      ∧ (inverse4 eps m4).fst = true
      ∧ (inverse3 eps m3).snd = mat3SMulRight (adjugate3 m3) (1 / determinant m3)
      ∧ (inverse4 eps m4).snd = mat4SMulRight (adjugate4 m4) (1 / determinant4 m4)
      ∧ (inverse3 eps m3).snd = (inverse3 eps2 m3).snd
      ∧ (inverse4 eps m4).snd = (inverse4 eps2 m4).snd := by
  refine ⟨by simpa [inverse3] using h3,
          by simpa [inverse4, scDet4_eq_determinant4] using h4,
          inverse3_snd eps m3, inverse4_snd eps m4, ?_, ?_⟩
  · rw [inverse3_snd, inverse3_snd]
  · rw [inverse4_snd, inverse4_snd]

/-- Claim C9 witness: eps = 2^-23, the diagonal matrices diag(2^-30,1,1)
and diag(2^-30,1,1,1) have tiny nonzero determinant; the hook fires and
the returned inverses are still the exact cofactor-over-determinant
values. -/
theorem inverse_no_early_exit_witness :
    |determinant tinyDiagM3| < epsF32
      ∧ |determinant4 tinyDiagM4| < epsF32
      ∧ ((inverse3 epsF32 tinyDiagM3).fst = true
          ∧ (inverse4 epsF32 tinyDiagM4).fst = true
          ∧ (inverse3 epsF32 tinyDiagM3).snd
              = mat3SMulRight (adjugate3 tinyDiagM3) (1 / determinant tinyDiagM3)
          ∧ (inverse4 epsF32 tinyDiagM4).snd
              = mat4SMulRight (adjugate4 tinyDiagM4) (1 / determinant4 tinyDiagM4)
          ∧ (inverse3 epsF32 tinyDiagM3).snd = (inverse3 1 tinyDiagM3).snd
          ∧ (inverse4 epsF32 tinyDiagM4).snd = (inverse4 1 tinyDiagM4).snd) :=
  have h3 : |determinant tinyDiagM3| < epsF32 := by
    rw [show determinant tinyDiagM3 = 1 / 1073741824 from by
          norm_num [determinant, tinyDiagM3],
        abs_of_pos (by norm_num)]
    norm_num [epsF32]
  have h4 : |determinant4 tinyDiagM4| < epsF32 := by
    rw [show determinant4 tinyDiagM4 = 1 / 1073741824 from by
          norm_num [determinant4, determinant, tinyDiagM4],
        abs_of_pos (by norm_num)]
    norm_num [epsF32]
  ⟨h3, h4, inverse_no_early_exit epsF32 1 tinyDiagM3 tinyDiagM4 h3 h4⟩

/-- Associativity of the embedded 3x3 matrix multiplication. -/
theorem mat3Mul_assoc (a b c : M3 ℚ) :
    mat3Mul (mat3Mul a b) c = mat3Mul a (mat3Mul b c) := by
  ext <;> simp only [mat3Mul, transpose3, dot] <;> ring

/-- Left identity for the embedded 3x3 matrix multiplication. -/
theorem mat3Mul_one_left (m : M3 ℚ) : mat3Mul (mat3Diag 1) m = m := by
  ext <;> simp only [mat3Mul, mat3Diag, transpose3, dot] <;> ring

/-- Right identity for the embedded 3x3 matrix multiplication. -/
theorem mat3Mul_one_right (m : M3 ℚ) : mat3Mul m (mat3Diag 1) = m := by
  ext <;> simp only [mat3Mul, mat3Diag, transpose3, dot] <;> ring

/-- Multiplicativity of the embedded 3x3 determinant. -/
theorem determinant_mat3Mul (a b : M3 ℚ) :
    determinant (mat3Mul a b) = determinant a * determinant b := by
  simp only [determinant, mat3Mul, transpose3, dot]
  ring

/-- Scalar factors slide out of the right operand of the multiply. -/
theorem mat3Mul_smulRight (m a : M3 ℚ) (k : ℚ) :
    mat3Mul m (mat3SMulRight a k) = mat3SMulRight (mat3Mul m a) k := by
  ext <;> simp only [mat3Mul, mat3SMulRight, transpose3, dot] <;> ring

/-- Classical adjugate identity for the embedded cofactor matrix:
m times its adjugate is the determinant on the diagonal. -/
theorem mat3Mul_adjugate3 (m : M3 ℚ) :
    mat3Mul m (adjugate3 m) = mat3SMulRight (mat3Diag 1) (determinant m) := by
  ext <;>
    simp only [mat3Mul, adjugate3, mat3SMulRight, mat3Diag, transpose3, dot, determinant] <;>
    ring

/-- Right inverse: for nonzero determinant, m times the cofactor inverse
is the identity. -/
theorem mat3Mul_inverse3_right (eps : ℚ) (m : M3 ℚ) (h : determinant m ≠ 0) :
    mat3Mul m (inverse3 eps m).snd = mat3Diag 1 := by
  rw [inverse3_snd, mat3Mul_smulRight, mat3Mul_adjugate3]
  ext <;> simp only [mat3SMulRight, mat3Diag] <;> field_simp

/-- Claim C4: for every 3x3 matrix with nonzero determinant (the exact
arithmetic reading of a not-near-zero determinant), m times its inverse
is the identity, and the inverse of the inverse is m again. -/
theorem inverse3_involution (eps : ℚ) (m : M3 ℚ) (h : determinant m ≠ 0) :
    mat3Mul m (inverse3 eps m).snd = mat3Diag 1
      ∧ (inverse3 eps (inverse3 eps m).snd).snd = m := by
  refine ⟨mat3Mul_inverse3_right eps m h, ?_⟩
  have hright := mat3Mul_inverse3_right eps m h
  have hdet1 : determinant m * determinant (inverse3 eps m).snd = 1 := by
    rw [← determinant_mat3Mul, hright]
    norm_num [determinant, mat3Diag]
  have hdetInv : determinant (inverse3 eps m).snd ≠ 0 := by
    intro hz
    rw [hz, mul_zero] at hdet1
    exact zero_ne_one hdet1
  calc (inverse3 eps (inverse3 eps m).snd).snd
      = mat3Mul (mat3Diag 1) (inverse3 eps (inverse3 eps m).snd).snd := by
        rw [mat3Mul_one_left]
    _ = mat3Mul (mat3Mul m (inverse3 eps m).snd)
          (inverse3 eps (inverse3 eps m).snd).snd := by rw [hright]
    _ = mat3Mul m (mat3Mul (inverse3 eps m).snd
          (inverse3 eps (inverse3 eps m).snd).snd) := mat3Mul_assoc ..
    _ = mat3Mul m (mat3Diag 1) := by
        rw [mat3Mul_inverse3_right eps (inverse3 eps m).snd hdetInv]
    _ = m := mat3Mul_one_right m

/-- Claim C4 witness: at the spec's concrete matrix and f32 epsilon,
m times inverse(m) is exactly the identity (hence within 1e-5 of it)
and inverse(inverse(m)) is exactly m. -/
theorem inverse3_involution_witness :
    determinant specM3 ≠ 0
      ∧ (mat3Mul specM3 (inverse3 epsF32 specM3).snd = mat3Diag 1
          ∧ (inverse3 epsF32 (inverse3 epsF32 specM3).snd).snd = specM3) :=
  ⟨by norm_num [determinant, specM3],
   inverse3_involution epsF32 specM3 (by norm_num [determinant, specM3])⟩

/-- Characterization of the Vulkan-variant assertion flag. -/
theorem perspVk_fst_iff (tanF : ℚ → ℚ) (eps fovy aspectRatio zNear zFar : ℚ) :
    (perspectiveProjectionToVulkanClipSpace tanF eps fovy aspectRatio zNear zFar).fst = true
      ↔ (aspectRatio = eps ∨ |zFar - zNear| ≤ eps ∨ fovy ≤ eps) := by
  simp [perspectiveProjectionToVulkanClipSpace, not_lt, abs_nonpos_iff, sub_eq_zero,
    Bool.or_eq_true, Bool.not_eq_true', decide_eq_false_iff_not, or_assoc]

/-- Characterization of the OpenGL-variant assertion flag. -/
theorem perspGl_fst_iff (tanF : ℚ → ℚ) (eps fovy aspectRatio zNear zFar : ℚ) :
    (perspectiveProjectionToOpenGLClipSpace tanF eps fovy aspectRatio zNear zFar).fst = true
      ↔ (aspectRatio = eps ∨ |zFar - zNear| ≤ eps ∨ fovy ≤ eps) := by
  simp [perspectiveProjectionToOpenGLClipSpace, not_lt, abs_nonpos_iff, sub_eq_zero,
    Bool.or_eq_true, Bool.not_eq_true', decide_eq_false_iff_not, or_assoc]

/-- Claim C6 counterexample: with f32 machine epsilon, aspect ratio 0
does not exceed machine epsilon, yet neither perspective builder fires
any assertion (the first assert tests `|aspect - eps| > 0`, which holds
for aspect 0), refuting the claim that the hook fires whenever the
aspect ratio does not exceed machine epsilon. -/
theorem perspective_assert_counterexample :
    (0:ℚ) ≤ epsF32
      ∧ (perspectiveProjectionToVulkanClipSpace (fun _ => 1) epsF32 1 0 (1/10) 100).fst
          = false
      ∧ (perspectiveProjectionToOpenGLClipSpace (fun _ => 1) epsF32 1 0 (1/10) 100).fst
          = false := by
  have habs : |(100:ℚ) - 1/10| = 999/10 := by
    rw [abs_of_pos] <;> norm_num
  refine ⟨by norm_num [epsF32], ?_, ?_⟩
  · rw [Bool.eq_false_iff, Ne, perspVk_fst_iff]
    push_neg
    refine ⟨by norm_num [epsF32], ?_, by norm_num [epsF32]⟩
    rw [habs]
    norm_num [epsF32]
  · rw [Bool.eq_false_iff, Ne, perspGl_fst_iff]
    push_neg
    refine ⟨by norm_num [epsF32], ?_, by norm_num [epsF32]⟩
    rw [habs]
    norm_num [epsF32]

/-- Claim C6 as amended: for both perspective builders the assertion
hook fires if and only if the aspect ratio equals machine epsilon
exactly, or `|zFar - zNear|` does not exceed machine epsilon, or `fovy`
does not exceed machine epsilon; in particular for inputs satisfying the
spec preconditions (each quantity exceeding machine epsilon) no
assertion fires and a matrix is returned. -/
theorem perspective_assert_amended (tanF : ℚ → ℚ)
    (eps fovy aspectRatio zNear zFar : ℚ) :
    ((perspectiveProjectionToVulkanClipSpace tanF eps fovy aspectRatio zNear zFar).fst = true
        ↔ (aspectRatio = eps ∨ |zFar - zNear| ≤ eps ∨ fovy ≤ eps))
      ∧ ((perspectiveProjectionToOpenGLClipSpace tanF eps fovy aspectRatio zNear zFar).fst = true
          ↔ (aspectRatio = eps ∨ |zFar - zNear| ≤ eps ∨ fovy ≤ eps)) :=
  ⟨perspVk_fst_iff tanF eps fovy aspectRatio zNear zFar,
   perspGl_fst_iff tanF eps fovy aspectRatio zNear zFar⟩

/-- Claim C10: every component of the ACES reference tonemap output lies
in [0, 1], because the final step clamps componentwise to [0, 1]. -/
theorem referenceToneMap_in_unit_interval (color : V3 ℚ) :
    (0 ≤ (referenceToneMap color).x ∧ (referenceToneMap color).x ≤ 1)
      ∧ (0 ≤ (referenceToneMap color).y ∧ (referenceToneMap color).y ≤ 1)
      ∧ (0 ≤ (referenceToneMap color).z ∧ (referenceToneMap color).z ≤ 1) := by
  refine ⟨⟨?_, ?_⟩, ⟨?_, ?_⟩, ⟨?_, ?_⟩⟩ <;>
    simp only [referenceToneMap, clamp, vmax, vmin] <;>
    first
      | exact le_max_left _ _
      | exact max_le (by norm_num) (min_le_right _ _)

/-- Claim C10 witness: the bounds evaluated at the out-of-gamut input
color (4, -2, 100). -/
theorem referenceToneMap_in_unit_interval_witness :
    (0 ≤ (referenceToneMap ⟨4, -2, 100⟩).x ∧ (referenceToneMap ⟨4, -2, 100⟩).x ≤ 1)
      ∧ (0 ≤ (referenceToneMap ⟨4, -2, 100⟩).y ∧ (referenceToneMap ⟨4, -2, 100⟩).y ≤ 1)
      ∧ (0 ≤ (referenceToneMap ⟨4, -2, 100⟩).z ∧ (referenceToneMap ⟨4, -2, 100⟩).z ≤ 1) :=
  referenceToneMap_in_unit_interval ⟨4, -2, 100⟩

/-- Expansion of any box with any point yields componentwise min ≤ max. -/
theorem expandWithPoint_ordered (box : aabb3) (v : V3 EFloat) :
    (expandWithPoint box v).min.x ≤ (expandWithPoint box v).max.x
      ∧ (expandWithPoint box v).min.y ≤ (expandWithPoint box v).max.y
      ∧ (expandWithPoint box v).min.z ≤ (expandWithPoint box v).max.z :=
  ⟨le_trans (min_le_left _ _) (le_max_left _ _),
   le_trans (min_le_left _ _) (le_max_left _ _),
   le_trans (min_le_left _ _) (le_max_left _ _)⟩

/-- Preservation of componentwise min ≤ max by any further fold of
expansions. -/
theorem foldl_expand_ordered (ps : List (V3 ℚ)) :
    ∀ box : aabb3,
      box.min.x ≤ box.max.x → box.min.y ≤ box.max.y → box.min.z ≤ box.max.z →
        ((ps.foldl (fun acc q => expandWithPoint acc (finiteV3 q)) box).min.x
            ≤ (ps.foldl (fun acc q => expandWithPoint acc (finiteV3 q)) box).max.x
          ∧ (ps.foldl (fun acc q => expandWithPoint acc (finiteV3 q)) box).min.y
            ≤ (ps.foldl (fun acc q => expandWithPoint acc (finiteV3 q)) box).max.y
          ∧ (ps.foldl (fun acc q => expandWithPoint acc (finiteV3 q)) box).min.z
            ≤ (ps.foldl (fun acc q => expandWithPoint acc (finiteV3 q)) box).max.z) := by
  induction ps with
  | nil => exact fun box hx hy hz => ⟨hx, hy, hz⟩
  | cons q rest ih =>
    intro box hx hy hz
    simpa using ih (expandWithPoint box (finiteV3 q))
      (expandWithPoint_ordered box (finiteV3 q)).1
      (expandWithPoint_ordered box (finiteV3 q)).2.1
      (expandWithPoint_ordered box (finiteV3 q)).2.2

/-- Claim C7: any box reachable from the default (empty/inverted) box by
a nonempty sequence of expandWithPoint calls with finite points satisfies
`min.x ≤ max.x`, `min.y ≤ max.y`, `min.z ≤ max.z`; since this holds for
every such sequence, it holds after every call. -/
theorem aabb_expand_min_le_max (p : V3 ℚ) (ps : List (V3 ℚ)) :
    (ps.foldl (fun acc q => expandWithPoint acc (finiteV3 q))
        (expandWithPoint aabb3Default (finiteV3 p))).min.x
      ≤ (ps.foldl (fun acc q => expandWithPoint acc (finiteV3 q))
          (expandWithPoint aabb3Default (finiteV3 p))).max.x
    ∧ (ps.foldl (fun acc q => expandWithPoint acc (finiteV3 q))
        (expandWithPoint aabb3Default (finiteV3 p))).min.y
      ≤ (ps.foldl (fun acc q => expandWithPoint acc (finiteV3 q))
          (expandWithPoint aabb3Default (finiteV3 p))).max.y
    ∧ (ps.foldl (fun acc q => expandWithPoint acc (finiteV3 q))
        (expandWithPoint aabb3Default (finiteV3 p))).min.z
      ≤ (ps.foldl (fun acc q => expandWithPoint acc (finiteV3 q))
          (expandWithPoint aabb3Default (finiteV3 p))).max.z :=
  foldl_expand_ordered ps (expandWithPoint aabb3Default (finiteV3 p))
    (expandWithPoint_ordered aabb3Default (finiteV3 p)).1
    (expandWithPoint_ordered aabb3Default (finiteV3 p)).2.1
    (expandWithPoint_ordered aabb3Default (finiteV3 p)).2.2

/-- Vanishing componentwise difference means equal vectors. -/
theorem eq_of_vsub_eq_zero (a b : V3 ℝ) (hz : vsub a b = V3.mk 0 0 0) :
    a = b := by
  have hx := congrArg V3.x hz
  have hy := congrArg V3.y hz
  have hz2 := congrArg V3.z hz
  simp only [vsub] at hx hy hz2
  ext
  · linarith [hx]
  · linarith [hy]
  · linarith [hz2]

/-- Positivity of the squared length of a nonzero real 3-vector. -/
theorem dot_self_pos (d : V3 ℝ) (hd : d ≠ V3.mk 0 0 0) : 0 < dot d d := by
  by_contra hle
  push_neg at hle
  simp only [dot] at hle
  apply hd
  have hx : d.x = 0 := mul_self_eq_zero.mp
    (le_antisymm (by linarith [mul_self_nonneg d.y, mul_self_nonneg d.z])
      (mul_self_nonneg _))
  have hy : d.y = 0 := mul_self_eq_zero.mp
    (le_antisymm (by linarith [mul_self_nonneg d.x, mul_self_nonneg d.z])
      (mul_self_nonneg _))
  have hz : d.z = 0 := mul_self_eq_zero.mp
    (le_antisymm (by linarith [mul_self_nonneg d.x, mul_self_nonneg d.y])
      (mul_self_nonneg _))
  ext <;> simp [hx, hy, hz]

/-- Unit length of the normalization of a nonzero real 3-vector with the
real square root. -/
theorem length_normalize_eq_one (d : V3 ℝ) (hd : d ≠ V3.mk 0 0 0) :
    length Real.sqrt (normalize Real.sqrt d) = 1 := by
  have hdd : 0 < dot d d := dot_self_pos d hd
  have hl : 0 < Real.sqrt (dot d d) := Real.sqrt_pos.mpr hdd
  have hsq : Real.sqrt (dot d d) * Real.sqrt (dot d d) = dot d d :=
    Real.mul_self_sqrt hdd.le
  have h1 : length2 (normalize Real.sqrt d) = 1 := by
    simp only [normalize, length, length2, vdivS, dot] at *
    field_simp
  simp only [length, h1, Real.sqrt_one]

/-- Claim C2: for distinct eye and target, `lookAt` computes
forward = normalize(target - eye) (which has unit length), derives right
and up from the supplied up hint via cross products, places those basis
vectors as the rows of the matrix (the third row being -forward), and
stores in the remaining row the projections of -eye onto each of those
row basis vectors. -/
theorem lookAt_view_matrix (eye target tempUp : V3 ℝ) (h : target ≠ eye) :
    row0 (lookAt Real.sqrt eye target tempUp)
        = v4 (lookRight Real.sqrt eye target tempUp) 0
      ∧ row1 (lookAt Real.sqrt eye target tempUp)
          = v4 (lookUp Real.sqrt eye target tempUp) 0
      ∧ row2 (lookAt Real.sqrt eye target tempUp)
          = v4 (vneg (normalize Real.sqrt (vsub target eye))) 0
      ∧ row3 (lookAt Real.sqrt eye target tempUp)
          = V4.mk (dot (lookRight Real.sqrt eye target tempUp) (vneg eye))
              (dot (lookUp Real.sqrt eye target tempUp) (vneg eye))
              (dot (vneg (normalize Real.sqrt (vsub target eye))) (vneg eye)) 1
      ∧ length Real.sqrt (lookForward Real.sqrt eye target) = 1 := by
  refine ⟨rfl, rfl, rfl, ?_, ?_⟩
  · have hx : -(dot (lookRight Real.sqrt eye target tempUp) eye)
        = dot (lookRight Real.sqrt eye target tempUp) (vneg eye) := by
      simp only [dot, vneg]
      ring
    have hy : -(dot (lookUp Real.sqrt eye target tempUp) eye)
        = dot (lookUp Real.sqrt eye target tempUp) (vneg eye) := by
      simp only [dot, vneg]
      ring
    have hw : dot (lookForward Real.sqrt eye target) eye
        = dot (vneg (normalize Real.sqrt (vsub target eye))) (vneg eye) := by
      simp only [lookForward, dot, vneg]
      ring
    ext
    · exact hx
    · exact hy
    · exact hw
    · rfl
  · refine length_normalize_eq_one (vsub target eye) ?_
    intro hz
    exact h (eq_of_vsub_eq_zero target eye hz)

/-- Claim C2 witness: the lookAt structure at eye = (0,0,0),
target = (0,0,-2), up hint = (0,1,0). -/
theorem lookAt_view_matrix_witness :
    V3.mk (0:ℝ) 0 (-2) ≠ V3.mk 0 0 0
      ∧ (row0 (lookAt Real.sqrt (V3.mk 0 0 0) (V3.mk 0 0 (-2)) (V3.mk 0 1 0))
            = v4 (lookRight Real.sqrt (V3.mk 0 0 0) (V3.mk 0 0 (-2)) (V3.mk 0 1 0)) 0
          ∧ row1 (lookAt Real.sqrt (V3.mk 0 0 0) (V3.mk 0 0 (-2)) (V3.mk 0 1 0))
              = v4 (lookUp Real.sqrt (V3.mk 0 0 0) (V3.mk 0 0 (-2)) (V3.mk 0 1 0)) 0
          ∧ row2 (lookAt Real.sqrt (V3.mk 0 0 0) (V3.mk 0 0 (-2)) (V3.mk 0 1 0))
              = v4 (vneg (normalize Real.sqrt (vsub (V3.mk 0 0 (-2)) (V3.mk 0 0 0)))) 0
          ∧ row3 (lookAt Real.sqrt (V3.mk 0 0 0) (V3.mk 0 0 (-2)) (V3.mk 0 1 0))
              = V4.mk
                  (dot (lookRight Real.sqrt (V3.mk 0 0 0) (V3.mk 0 0 (-2)) (V3.mk 0 1 0))
                    (vneg (V3.mk 0 0 0)))
                  (dot (lookUp Real.sqrt (V3.mk 0 0 0) (V3.mk 0 0 (-2)) (V3.mk 0 1 0))
                    (vneg (V3.mk 0 0 0)))
                  (dot (vneg (normalize Real.sqrt (vsub (V3.mk 0 0 (-2)) (V3.mk 0 0 0))))
                    (vneg (V3.mk 0 0 0))) 1
          ∧ length Real.sqrt (lookForward Real.sqrt (V3.mk 0 0 0) (V3.mk 0 0 (-2))) = 1) :=
  have hne : V3.mk (0:ℝ) 0 (-2) ≠ V3.mk 0 0 0 := by
    intro hq
    have h2 := congrArg V3.z hq
    norm_num at h2
  ⟨hne, lookAt_view_matrix (V3.mk 0 0 0) (V3.mk 0 0 (-2)) (V3.mk 0 1 0) hne⟩

end Moos
